import Mathlib

/-!
Verification development for the zthpool reward-computation and payout-ledger
core (Go sources `payouts/unlocker.go` and `storage/redis.go.save`).

The Go code is shallowly embedded:

* A Go `map[int64]float64` reward schedule is embedded as a
  `List (Int × ℚ)` of `(minHeight, rewardAmount)` breakpoints; the list order
  stands for the traversal order of the `range` loop.  Go map iteration order
  is unspecified, so theorems that depend on the order either take sortedness
  as a hypothesis or quantify over permutations of the breakpoint list.
* The reward amounts (`float64` in Go) are embedded as `ℚ`.  The code never
  performs arithmetic on these values — it only stores, selects and returns
  them — so the embedding is exact for every value the program holds
  (50, 25, 12.5, 6.25 are all dyadic rationals).
* `log.Fatalf` (process abort) is embedded as `Except.error`.
* The redis store is embedded as an association list of key/value pairs;
  a stored JSON document is modelled at the JSON-syntax-tree level.
-/

/-- Embeds Go struct `NetworkConfig` from `payouts/unlocker.go`.
`BlockReward` (`map[int64]float64` in Go) is a breakpoint list, see above. -/
structure NetworkConfig where
  Name : String
  BlockReward : List (Int × ℚ)
  AdjustmentFreq : Int
  HasUncles : Bool

/-- Embeds Go var `ZetherRewards` (the mainnet schedule), in source-text
order, which is ascending by height. -/
def ZetherRewards : List (Int × ℚ) :=
  [(0, 50), (100000, 25), (200000, 12.5), (300000, 6.25)]

/-- Embeds Go var `TestnetRewards`, in source-text order. -/
def TestnetRewards : List (Int × ℚ) :=
  [(0, 50), (1000, 25), (2000, 12.5), (3000, 6.25)]

/-- Embeds Go var `ZetherNetwork`. -/
def ZetherNetwork : NetworkConfig :=
  { Name := "ZetherMainnet", BlockReward := ZetherRewards,
    AdjustmentFreq := 100000, HasUncles := false }

/-- Embeds Go var `ZetherTestnet` (the testnet `NetworkConfig`). -/
def ZetherTestnetConfig : NetworkConfig :=
  { Name := "ZetherTestnet", BlockReward := TestnetRewards,
    AdjustmentFreq := 1000, HasUncles := false }

/-- The loop body of Go `GetReward`: `reward` starts at `0.0`; for each
breakpoint `(height, r)` in traversal order, if `blockHeight >= height` the
accumulator becomes `r`, otherwise the loop `break`s and the accumulator is
returned. -/
def getRewardLoop (blockHeight : Int) (reward : ℚ) : List (Int × ℚ) → ℚ
  | [] => reward
  | (height, r) :: rest =>
      if blockHeight ≥ height then getRewardLoop blockHeight r rest else reward

/-- Go `GetReward` restricted to its schedule argument: resolve a reward by
traversing the breakpoint list with `getRewardLoop`. -/
def getRewardSchedule (schedule : List (Int × ℚ)) (blockHeight : Int) : ℚ :=
  getRewardLoop blockHeight 0 schedule

/-- Embeds Go func `GetReward(config NetworkConfig, blockHeight int64) float64`. -/
def GetReward (config : NetworkConfig) (blockHeight : Int) : ℚ :=
  getRewardSchedule config.BlockReward blockHeight

/-- Embeds Go func `SimulateUnlock`: a negative height hits
`log.Fatalf("Invalid block height: %d", blockHeight)` (process abort, embedded
as `Except.error`); otherwise the reward computed by `GetReward` is printed
(embedded as the `Except.ok` payload). -/
def SimulateUnlock (config : NetworkConfig) (blockHeight : Int) : Except String ℚ :=
  if blockHeight < 0 then
    Except.error ("Invalid block height: " ++ toString blockHeight)
  else
    Except.ok (GetReward config blockHeight)

/-- Embeds Go struct `PendingPayment` from `storage/redis.go.save`:
`{Address string; Amount int64; Timestamp int64}`.  The `int64` fields are
embedded as `Int`; the code never does arithmetic on them. -/
structure PendingPayment where
  Address : String
  Amount : Int
  Timestamp : Int
deriving DecidableEq

/-- Model of a JSON document, at the syntax-tree level.  A value stored in
redis by this code is the `encoding/json` serialisation of a Go value; the
embedding keeps the document structure (object field names, string/integer
payloads) and abstracts over the character-level rendering.  Only the
constructors the program can produce or meet are modelled. -/
inductive Json where
  | str (s : String)
  | num (n : Int)
  | obj (fields : List (String × Json))
  | null

/-- Model of `encoding/json.Marshal` on a `PendingPayment`: a Go struct
marshals to a JSON object whose field names are the exported Go field names,
in declaration order. -/
def marshalPendingPayment (p : PendingPayment) : Json :=
  Json.obj
    [("Address", Json.str p.Address),
     ("Amount", Json.num p.Amount),
     ("Timestamp", Json.num p.Timestamp)]

/-- One step of `encoding/json.Unmarshal` into a `PendingPayment`: store an
object field into the struct.  A name matching a struct field requires the
matching JSON type (string for `Address`, integer number for `Amount` and
`Timestamp`), anything else is a type error; an unknown field is ignored.
(Go also matches field names case-insensitively as a fallback; the code under
verification never produces such documents, so that fallback is omitted.) -/
def unmarshalField (p : PendingPayment) (name : String) (v : Json) :
    Except String PendingPayment :=
  if name = "Address" then
    match v with
    | Json.str s => Except.ok { p with Address := s }
    | _ => Except.error "cannot unmarshal into field Address"
  else if name = "Amount" then
    match v with
    | Json.num n => Except.ok { p with Amount := n }
    | _ => Except.error "cannot unmarshal into field Amount"
  else if name = "Timestamp" then
    match v with
    | Json.num n => Except.ok { p with Timestamp := n }
    | _ => Except.error "cannot unmarshal into field Timestamp"
  else
    Except.ok p

/-- Fold `unmarshalField` over the fields of a JSON object, in order. -/
def unmarshalFields (p : PendingPayment) :
    List (String × Json) → Except String PendingPayment
  | [] => Except.ok p
  | (name, v) :: rest =>
      match unmarshalField p name v with
      | Except.error e => Except.error e
      | Except.ok p' => unmarshalFields p' rest

/-- Model of `encoding/json.Unmarshal` into a zero-valued `PendingPayment`
variable (as in `GetPendingPayments`): an object fills the struct field by
field, `null` is a no-op leaving the zero value, any other document is a type
error. -/
def unmarshalPendingPayment : Json → Except String PendingPayment
  | Json.obj fields => unmarshalFields ⟨"", 0, 0⟩ fields
  | Json.null => Except.ok ⟨"", 0, 0⟩
  | _ => Except.error "cannot unmarshal into PendingPayment"

/-- Result of a redis `GET`: the value, or the distinguished `redis.Nil`
error when the key does not exist, or a transport/connectivity failure. -/
inductive RedisErr where
  | nil
  | failure (msg : String)

/-- A redis keyspace holding string-typed keys whose values are JSON
documents, as an association list.  Keys in redis are unique; the operations
below preserve uniqueness, and `lookup` reads the first binding. -/
abbrev JsonStore := List (String × Json)

/-- A redis keyspace holding plain string values (the `payouts_locked`
sentinel and the keys the deletion helpers touch). -/
abbrev StrStore := List (String × String)

/-- redis `GET` against a string keyspace: a missing key is the `redis.Nil`
error, not a value. -/
def redisGetStr (store : StrStore) (key : String) : Except RedisErr String :=
  match store.lookup key with
  | some v => Except.ok v
  | none => Except.error RedisErr.nil

/-- redis `GET` against a JSON keyspace. -/
def redisGetJson (store : JsonStore) (key : String) : Except RedisErr Json :=
  match store.lookup key with
  | some v => Except.ok v
  | none => Except.error RedisErr.nil

/-- redis `DEL` on the keyspace: removes the key's binding; deleting an
absent key is a successful no-op (redis reports a deleted-count of 0 and no
error). -/
def redisDel (store : StrStore) (key : String) : StrStore :=
  store.filter (fun kv => kv.1 ≠ key)

/-- redis `SET`: bind the key to the value, replacing any prior binding. -/
def redisSet (store : StrStore) (key val : String) : StrStore :=
  (key, val) :: redisDel store key

/-- Embeds Go method `IsPayoutsLocked`, parametrised by the result of the
`GET payouts_locked` call so that transport failures can be considered.  Go
returns the pair `(bool, error)`: `redis.Nil` collapses to `(false, nil)`,
any other error is wrapped and surfaced, otherwise the bool is
`val == "1"`. -/
def IsPayoutsLocked (getResult : Except RedisErr String) : Bool × Option String :=
  match getResult with
  | Except.error RedisErr.nil => (false, none)
  | Except.error (RedisErr.failure m) =>
      (false, some ("failed to check payouts lock: " ++ m))
  | Except.ok v => (v == "1", none)

/-- `IsPayoutsLocked` run against a concrete keyspace (no transport
failure). -/
def isPayoutsLockedStore (store : StrStore) : Bool × Option String :=
  IsPayoutsLocked (redisGetStr store "payouts_locked")

/-- Embeds Go method `DeleteOldMinerData`: issue `DEL key`; the redis `DEL`
of an existing or absent key succeeds, so no error is produced (transport
failures aside, which the surrounding claims do not quantify over).  Returns
the updated keyspace and the Go `error` result. -/
def DeleteOldMinerData (store : StrStore) (key : String) : StrStore × Option String :=
  (redisDel store key, none)

/-- Embeds Go method `DeleteOldShareData`, identical to `DeleteOldMinerData`
except for its log/error text. -/
def DeleteOldShareData (store : StrStore) (key : String) : StrStore × Option String :=
  (redisDel store key, none)

/-- The key pattern `pending_payment:*` used by `GetPendingPayments`:
a glob that matches exactly the keys starting with `pending_payment:`
(stated on the underlying character lists). -/
def matchesPendingPayment (key : String) : Bool :=
  "pending_payment:".data.isPrefixOf key.data

/-- redis `KEYS pending_payment:*`: the keys of the keyspace matching the
pattern. -/
def redisKeys (store : JsonStore) : List String :=
  (store.filter (fun kv => matchesPendingPayment kv.1)).map Prod.fst

/-- The loop of Go `GetPendingPayments`, parametrised by the `GET` operation:
for each key, fetch the value (any `GET` error — including `redis.Nil`, which
can only arise here if the key vanished — aborts the whole listing), decode
it (any decode error aborts the whole listing), and collect the records in
key order. -/
def getPendingPaymentsLoop (fetch : String → Except RedisErr Json) :
    List String → Except String (List PendingPayment)
  | [] => Except.ok []
  | key :: rest =>
      match fetch key with
      | Except.error _ =>
          Except.error ("failed to get payment data for key " ++ key)
      | Except.ok val =>
          match unmarshalPendingPayment val with
          | Except.error e =>
              Except.error ("failed to unmarshal payment data: " ++ e)
          | Except.ok p =>
              match getPendingPaymentsLoop fetch rest with
              | Except.error e => Except.error e
              | Except.ok ps => Except.ok (p :: ps)

/-- Embeds Go method `GetPendingPayments` against a concrete keyspace:
`KEYS pending_payment:*`, then fetch-and-decode each key. -/
def GetPendingPayments (store : JsonStore) : Except String (List PendingPayment) :=
  getPendingPaymentsLoop (redisGetJson store) (redisKeys store)

/-- The mainnet breakpoint set of `ZetherRewards` in a different traversal
order (the second breakpoint encountered first).  Go map iteration order is
unspecified, so this order is as legitimate a run of the `range` loop in
`GetReward` as the ascending one. -/
def zetherRewardsPermuted : List (Int × ℚ) :=
  [(100000, 25), (0, 50), (200000, 12.5), (300000, 6.25)]

/-- The mainnet breakpoint set of `ZetherRewards` traversed in descending
height order — another legitimate run of the `range` loop over the same Go
map, since map iteration order is unspecified. -/
def zetherRewardsDescending : List (Int × ℚ) :=
  [(300000, 6.25), (200000, 12.5), (100000, 25), (0, 50)]

/-- Whether a Go `(value, error)` result embedded as `Except` is the
success case. -/
def isOkE {ε α : Type} : Except ε α → Bool
  | Except.ok _ => true
  | Except.error _ => false

/-! ## Theorems -/

/-- Characterisation of the `GetReward` loop on a breakpoint list that is
strictly ascending in height (the traversal order the Go code relies on):
starting from accumulator `r`, the loop returns `r` when no breakpoint
applies, and otherwise the reward of the applicable breakpoint with the
largest height. -/
theorem getRewardLoop_char (bh : Int) :
    ∀ l : List (Int × ℚ), List.Pairwise (fun a b => a.1 < b.1) l →
    ∀ r : ℚ,
      ((∀ b ∈ l, ¬ b.1 ≤ bh) ∧ getRewardLoop bh r l = r) ∨
      (∃ b ∈ l, b.1 ≤ bh ∧ (∀ b' ∈ l, b'.1 ≤ bh → b'.1 ≤ b.1) ∧
        getRewardLoop bh r l = b.2) := by
  intro l
  induction l with
  | nil => exact fun _ r => Or.inl ⟨by simp, rfl⟩
  | cons hd tl ih =>
      obtain ⟨h0, r0⟩ := hd
      intro hsort r
      rw [List.pairwise_cons] at hsort
      obtain ⟨hhd, htl⟩ := hsort
      by_cases hge : bh ≥ h0
      · have hloop : getRewardLoop bh r ((h0, r0) :: tl) = getRewardLoop bh r0 tl := by
          simp [getRewardLoop, hge]
        rcases ih htl r0 with ⟨hnone, heq⟩ | ⟨b, hb, hble, hmax, heq⟩
        · refine Or.inr ⟨(h0, r0), List.mem_cons_self _ _, hge, ?_, by rw [hloop, heq]⟩
          intro b' hb' hble'
          rcases List.mem_cons.mp hb' with rfl | hmem
          · exact le_refl _
          · exact absurd hble' (hnone b' hmem)
        · refine Or.inr ⟨b, List.mem_cons_of_mem _ hb, hble, ?_, by rw [hloop, heq]⟩
          intro b' hb' hble'
          rcases List.mem_cons.mp hb' with rfl | hmem
          · exact le_of_lt (hhd b hb)
          · exact hmax b' hmem hble'
      · have hlt : bh < h0 := lt_of_not_ge hge
        refine Or.inl ⟨?_, by simp [getRewardLoop, hge]⟩
        intro b hb
        rcases List.mem_cons.mp hb with rfl | hmem
        · exact not_le.mpr hlt
        · exact not_le.mpr (lt_trans hlt (hhd b hmem))

/-- On a list that is strictly ascending in height and non-increasing in
reward, an element with a smaller-or-equal height has a
larger-or-equal reward. -/
theorem snd_le_of_fst_le {l : List (Int × ℚ)}
    (hp : List.Pairwise (fun a b => a.1 < b.1 ∧ b.2 ≤ a.2) l)
    {a b : Int × ℚ} (ha : a ∈ l) (hb : b ∈ l) (hab : a.1 ≤ b.1) :
    b.2 ≤ a.2 := by
  induction l with
  | nil => cases ha
  | cons hd tl ih =>
      rw [List.pairwise_cons] at hp
      obtain ⟨hhd, htl⟩ := hp
      rcases List.mem_cons.mp ha with rfl | hma
      · rcases List.mem_cons.mp hb with rfl | hmb
        · exact le_refl _
        · exact (hhd b hmb).2
      · rcases List.mem_cons.mp hb with rfl | hmb
        · exact absurd hab (not_le.mpr (hhd a hma).1)
        · exact ih htl hma hmb

/-- C1: for every schedule whose breakpoints are strictly increasing in
`minHeight` and every non-negative height `h`, `GetReward`'s resolver returns
the `rewardAmount` of the breakpoint with the largest `minHeight` such that
`minHeight ≤ h`; if no breakpoint has `minHeight ≤ h`, the result is zero. -/
theorem getReward_largest_applicable (schedule : List (Int × ℚ))
    (hsort : List.Pairwise (fun a b => a.1 < b.1) schedule)
    (h : Int) (_hh : 0 ≤ h) :
    ((∀ b ∈ schedule, ¬ b.1 ≤ h) ∧ getRewardSchedule schedule h = 0) ∨
    (∃ b ∈ schedule, b.1 ≤ h ∧ (∀ b' ∈ schedule, b'.1 ≤ h → b'.1 ≤ b.1) ∧
      getRewardSchedule schedule h = b.2) :=
  getRewardLoop_char h schedule hsort 0

/-- Witness for C1 at the mainnet schedule and height 150000. -/
theorem getReward_largest_applicable_witness :
    (List.Pairwise (fun a b : Int × ℚ => a.1 < b.1) ZetherRewards ∧
      (0 : Int) ≤ 150000) ∧
    (((∀ b ∈ ZetherRewards, ¬ b.1 ≤ (150000 : Int)) ∧
        getRewardSchedule ZetherRewards 150000 = 0) ∨
      (∃ b ∈ ZetherRewards, b.1 ≤ (150000 : Int) ∧
        (∀ b' ∈ ZetherRewards, b'.1 ≤ (150000 : Int) → b'.1 ≤ b.1) ∧
        getRewardSchedule ZetherRewards 150000 = b.2)) :=
  ⟨⟨by decide, by decide⟩,
    getReward_largest_applicable ZetherRewards (by decide) 150000 (by decide)⟩

/-- C2, counterexample: a schedule satisfying the claim's hypotheses
(strictly increasing heights, non-increasing rewards) on which
`resolveReward` is **not** non-increasing in height: below the lowest
breakpoint the resolver yields 0, which is smaller than the reward at the
breakpoint.  Here `h1 = 0 ≤ h2 = 100` but
`resolveReward 0 = 0 < 50 = resolveReward 100`. -/
theorem getReward_monotone_counterexample :
    List.Pairwise (fun a b : Int × ℚ => a.1 < b.1) [((100 : Int), (50 : ℚ))] ∧
    List.Pairwise (fun a b : Int × ℚ => b.2 ≤ a.2) [((100 : Int), (50 : ℚ))] ∧
    (0 : Int) ≤ 100 ∧
    ¬ (getRewardSchedule [((100 : Int), (50 : ℚ))] 100 ≤
        getRewardSchedule [((100 : Int), (50 : ℚ))] 0) := by
  refine ⟨by decide, by decide, by decide, ?_⟩
  norm_num [getRewardSchedule, getRewardLoop]

/-- C2 as amended: for a schedule with strictly increasing heights and
non-increasing rewards, the resolver is non-increasing over the heights at or
above the lowest breakpoint (i.e. those to which at least one breakpoint
applies): for `h1 ≤ h2` with some breakpoint applicable to `h1`,
`resolveReward h2 ≤ resolveReward h1`. -/
theorem getReward_antitone_above_first (schedule : List (Int × ℚ))
    (hsort : List.Pairwise (fun a b => a.1 < b.1) schedule)
    (hdecay : List.Pairwise (fun a b => b.2 ≤ a.2) schedule)
    (h1 h2 : Int) (h12 : h1 ≤ h2)
    (happ : ∃ b ∈ schedule, b.1 ≤ h1) :
    getRewardSchedule schedule h2 ≤ getRewardSchedule schedule h1 := by
  rcases getRewardLoop_char h1 schedule hsort 0 with ⟨hnone, _⟩ |
    ⟨b1, hb1, hb1le, hmax1, heq1⟩
  · obtain ⟨b, hb, hble⟩ := happ
    exact absurd hble (hnone b hb)
  · rcases getRewardLoop_char h2 schedule hsort 0 with ⟨hnone2, _⟩ |
      ⟨b2, hb2, hb2le, hmax2, heq2⟩
    · exact absurd (le_trans hb1le h12) (hnone2 b1 hb1)
    · have hfst : b1.1 ≤ b2.1 := hmax2 b1 hb1 (le_trans hb1le h12)
      have := snd_le_of_fst_le (hsort.and hdecay) hb1 hb2 hfst
      rw [show getRewardSchedule schedule h1 = b1.2 from heq1,
        show getRewardSchedule schedule h2 = b2.2 from heq2]
      exact this

/-- Witness for the amended C2 at the mainnet schedule,
`h1 = 100000 ≤ h2 = 250000`. -/
theorem getReward_antitone_above_first_witness :
    (List.Pairwise (fun a b : Int × ℚ => a.1 < b.1) ZetherRewards ∧
      List.Pairwise (fun a b : Int × ℚ => b.2 ≤ a.2) ZetherRewards ∧
      (100000 : Int) ≤ 250000 ∧
      (∃ b ∈ ZetherRewards, b.1 ≤ (100000 : Int))) ∧
    getRewardSchedule ZetherRewards 250000 ≤ getRewardSchedule ZetherRewards 100000 :=
  ⟨⟨by decide, by norm_num [ZetherRewards], by decide,
      ⟨(0, 50), by simp [ZetherRewards], by decide⟩⟩,
    getReward_antitone_above_first ZetherRewards (by decide)
      (by norm_num [ZetherRewards]) 100000 250000 (by decide)
      ⟨(0, 50), by simp [ZetherRewards], by decide⟩⟩

/-- C3: the reward resolver's result depends on the traversal order of the
breakpoint collection.  `zetherRewardsPermuted` is a permutation of the
mainnet breakpoint set `ZetherRewards` (so it describes the same Go map, and
Go map iteration order is unspecified), yet at height 150000 the ascending
traversal yields 25 while the permuted traversal yields 50. -/
theorem getReward_order_dependent :
    zetherRewardsPermuted.Perm ZetherRewards ∧
    getRewardSchedule ZetherRewards 150000 = 25 ∧
    getRewardSchedule zetherRewardsPermuted 150000 = 50 := by
  refine ⟨?_, ?_, ?_⟩
  · simp only [zetherRewardsPermuted, ZetherRewards]
    exact List.Perm.swap _ _ _
  · norm_num [getRewardSchedule, getRewardLoop, ZetherRewards]
  · norm_num [getRewardSchedule, getRewardLoop, zetherRewardsPermuted]

/-- C4, counterexample: the resolver itself does not fail on a negative
height — `GetReward` has no failure channel at all, and on the mainnet
schedule it returns the reward value 0 at height `-1`. -/
theorem getReward_negative_returns_zero :
    getRewardSchedule ZetherRewards (-1) = 0 := by
  norm_num [getRewardSchedule, getRewardLoop, ZetherRewards]

/-- C4 as amended: the negative-height rejection lives in `SimulateUnlock`,
not in the resolver: for every config and negative height, `SimulateUnlock`
aborts fatally with the invalid-height message (embedded as an error) instead
of producing a reward, while `GetReward` itself just returns 0 whenever all
breakpoints have non-negative heights. -/
theorem negative_height_validation (config : NetworkConfig) (h : Int)
    (hneg : h < 0) :
    SimulateUnlock config h =
      Except.error ("Invalid block height: " ++ toString h) ∧
    ((∀ b ∈ config.BlockReward, 0 ≤ b.1) → GetReward config h = 0) := by
  constructor
  · simp [SimulateUnlock, hneg]
  · intro hpos
    cases hsched : config.BlockReward with
    | nil => simp [GetReward, getRewardSchedule, hsched, getRewardLoop]
    | cons hd tl =>
        obtain ⟨h0, r0⟩ := hd
        have hk : 0 ≤ h0 := hpos (h0, r0) (by rw [hsched]; exact List.mem_cons_self _ _)
        have hlt : ¬ h ≥ h0 := by omega
        simp [GetReward, getRewardSchedule, hsched, getRewardLoop, hlt]

/-- Witness for the amended C4 at the mainnet config and height `-1`. -/
theorem negative_height_validation_witness :
    ((-1 : Int) < 0 ∧ (∀ b ∈ ZetherNetwork.BlockReward, 0 ≤ b.1)) ∧
    (SimulateUnlock ZetherNetwork (-1) =
        Except.error ("Invalid block height: " ++ toString (-1 : Int)) ∧
      ((∀ b ∈ ZetherNetwork.BlockReward, 0 ≤ b.1) →
        GetReward ZetherNetwork (-1) = 0)) :=
  ⟨⟨by decide, by decide⟩, negative_height_validation ZetherNetwork (-1) (by decide)⟩

/-- C5: the concrete mainnet evaluations 50 @ 50000, 25 @ 150000,
6.25 @ 300000 and 6.25 @ 1000000 are produced only by the ascending
traversal of the `ZetherRewards` map; `zetherRewardsDescending` is a
permutation of the same breakpoint set (the same Go map, whose iteration
order is unspecified), and under it the loop returns 0, 0, 50 and 50 at
those heights — so the program does not guarantee the claimed values. -/
theorem zether_mainnet_rewards_order_bug :
    zetherRewardsDescending.Perm ZetherRewards ∧
    (getRewardSchedule ZetherRewards 50000 = 50 ∧
      getRewardSchedule ZetherRewards 150000 = 25 ∧
      getRewardSchedule ZetherRewards 300000 = 6.25 ∧
      getRewardSchedule ZetherRewards 1000000 = 6.25) ∧
    (getRewardSchedule zetherRewardsDescending 50000 = 0 ∧
      getRewardSchedule zetherRewardsDescending 150000 = 0 ∧
      getRewardSchedule zetherRewardsDescending 300000 = 50 ∧
      getRewardSchedule zetherRewardsDescending 1000000 = 50) := by
  refine ⟨?_, ⟨?_, ?_, ?_, ?_⟩, ⟨?_, ?_, ?_, ?_⟩⟩
  · rw [show zetherRewardsDescending = ZetherRewards.reverse from rfl]
    exact ZetherRewards.reverse_perm
  all_goals
    norm_num [getRewardSchedule, getRewardLoop, ZetherRewards,
      zetherRewardsDescending]

/-- After `redisDel`, the deleted key has no binding. -/
theorem lookup_redisDel (store : StrStore) (key : String) :
    (redisDel store key).lookup key = none := by
  induction store with
  | nil => rfl
  | cons hd tl ih =>
      by_cases hk : hd.1 = key
      · simpa [redisDel, List.filter, hk] using ih
      · have hbeq : (key == hd.1) = false := by
          simp [BEq.beq]
          exact fun he => hk he.symm
        simpa [redisDel, List.filter, hk, List.lookup, hbeq] using ih

/-- `redisDel` of a key with no binding leaves the keyspace unchanged. -/
theorem redisDel_absent (store : StrStore) (key : String)
    (habs : store.lookup key = none) : redisDel store key = store := by
  induction store with
  | nil => rfl
  | cons hd tl ih =>
      by_cases hbeq : (key == hd.1) = true
      · simp [List.lookup, hbeq] at habs
      · rw [List.lookup] at habs
        rw [Bool.not_eq_true] at hbeq
        rw [hbeq] at habs
        have hne : hd.1 ≠ key := by
          intro he
          rw [he, beq_self_eq_true] at hbeq
          cases hbeq
        have habs' : List.lookup key tl = none := habs
        simp only [redisDel, List.filter] at ih ⊢
        rw [show decide (hd.1 ≠ key) = true by simp [hne]]
        show hd :: List.filter (fun kv => decide (kv.1 ≠ key)) tl = hd :: tl
        rw [ih habs']

/-- Decoding the document produced by encoding a `PendingPayment` recovers
the record exactly. -/
theorem unmarshal_marshal (p : PendingPayment) :
    unmarshalPendingPayment (marshalPendingPayment p) = Except.ok p := by
  obtain ⟨a, m, t⟩ := p
  simp [marshalPendingPayment, unmarshalPendingPayment, unmarshalFields,
    unmarshalField]

/-- The `GetPendingPayments` loop succeeds exactly when every key both
fetches and decodes successfully. -/
theorem getPendingPaymentsLoop_ok_iff (fetch : String → Except RedisErr Json) :
    ∀ keys : List String,
      isOkE (getPendingPaymentsLoop fetch keys) = true ↔
      ∀ k ∈ keys, ∃ v, fetch k = Except.ok v ∧
        ∃ p, unmarshalPendingPayment v = Except.ok p := by
  intro keys
  induction keys with
  | nil => simp [getPendingPaymentsLoop, isOkE]
  | cons k ks ih =>
      constructor
      · intro hok k' hk'
        cases hf : fetch k with
        | error e => simp [getPendingPaymentsLoop, hf, isOkE] at hok
        | ok v =>
            cases hu : unmarshalPendingPayment v with
            | error e => simp [getPendingPaymentsLoop, hf, hu, isOkE] at hok
            | ok p =>
                have hrest : isOkE (getPendingPaymentsLoop fetch ks) = true := by
                  cases hr : getPendingPaymentsLoop fetch ks with
                  | error e =>
                      simp [getPendingPaymentsLoop, hf, hu, hr, isOkE] at hok
                  | ok ps => simp [isOkE]
                rcases List.mem_cons.mp hk' with rfl | hmem
                · exact ⟨v, hf, p, hu⟩
                · exact (ih.mp hrest) k' hmem
      · intro hall
        obtain ⟨v, hf, p, hu⟩ := hall k (List.mem_cons_self _ _)
        have hrest := ih.mpr (fun k' hk' => hall k' (List.mem_cons_of_mem _ hk'))
        cases hr : getPendingPaymentsLoop fetch ks with
        | error e => rw [hr] at hrest; simp [isOkE] at hrest
        | ok ps => simp [getPendingPaymentsLoop, hf, hu, hr, isOkE]

/-- C6: the pending-payment listing is fail-fast.  For every fetch behaviour
and key list: if any single key's fetch fails or its value fails to decode,
the whole listing is an error (so no partial list is returned); and a
successful listing implies every key was fetched and decoded successfully. -/
theorem getPendingPayments_failFast (fetch : String → Except RedisErr Json)
    (keys : List String) :
    ((∃ k ∈ keys, isOkE (fetch k) = false ∨
        ∃ v, fetch k = Except.ok v ∧
          isOkE (unmarshalPendingPayment v) = false) →
      isOkE (getPendingPaymentsLoop fetch keys) = false) ∧
    (isOkE (getPendingPaymentsLoop fetch keys) = true →
      ∀ k ∈ keys, ∃ v, fetch k = Except.ok v ∧
        ∃ p, unmarshalPendingPayment v = Except.ok p) := by
  constructor
  · rintro ⟨k, hk, hbad⟩
    cases hres : isOkE (getPendingPaymentsLoop fetch keys) with
    | false => rfl
    | true =>
        exfalso
        obtain ⟨v, hf, p, hu⟩ :=
          (getPendingPaymentsLoop_ok_iff fetch keys).mp hres k hk
        rcases hbad with hbad | ⟨v', hv', hbad'⟩
        · rw [hf] at hbad
          simp [isOkE] at hbad
        · rw [hf] at hv'
          injection hv' with hvv
          subst hvv
          rw [hu] at hbad'
          simp [isOkE] at hbad'
  · exact (getPendingPaymentsLoop_ok_iff fetch keys).mp

/-- Witness for C6: one key whose fetch fails makes the listing fail. -/
theorem getPendingPayments_failFast_witness :
    (∃ k ∈ ["k"],
      isOkE ((fun _ => (Except.error RedisErr.nil : Except RedisErr Json)) k) = false ∨
      ∃ v, (fun _ => (Except.error RedisErr.nil : Except RedisErr Json)) k = Except.ok v ∧
        isOkE (unmarshalPendingPayment v) = false) ∧
    isOkE (getPendingPaymentsLoop
      (fun _ => (Except.error RedisErr.nil : Except RedisErr Json)) ["k"]) = false :=
  ⟨⟨"k", by simp, Or.inl rfl⟩,
    (getPendingPayments_failFast
      (fun _ => (Except.error RedisErr.nil : Except RedisErr Json)) ["k"]).1
      ⟨"k", by simp, Or.inl rfl⟩⟩

/-- C7: the payout lock is fail-open on a missing key and fail-closed on a
store failure: with no `payouts_locked` binding `IsPayoutsLocked` yields
`(false, no error)`; after the sentinel `"1"` is set it yields
`(true, no error)`; after the sentinel is deleted it yields
`(false, no error)` again; and a store failure other than key-not-found is
surfaced as a wrapped error, never as a trusted `false` answer. -/
theorem isPayoutsLocked_roundtrip (store : StrStore) (m : String) :
    (store.lookup "payouts_locked" = none →
      isPayoutsLockedStore store = (false, none)) ∧
    isPayoutsLockedStore (redisSet store "payouts_locked" "1") = (true, none) ∧
    isPayoutsLockedStore (redisDel store "payouts_locked") = (false, none) ∧
    IsPayoutsLocked (Except.error (RedisErr.failure m)) =
      (false, some ("failed to check payouts lock: " ++ m)) := by
  refine ⟨?_, ?_, ?_, rfl⟩
  · intro habs
    simp [isPayoutsLockedStore, redisGetStr, habs, IsPayoutsLocked]
  · simp [isPayoutsLockedStore, redisGetStr, redisSet, List.lookup,
      IsPayoutsLocked]
  · simp [isPayoutsLockedStore, redisGetStr, lookup_redisDel, IsPayoutsLocked]

/-- Witness for C7 on the empty keyspace. -/
theorem isPayoutsLocked_roundtrip_witness :
    (([] : StrStore).lookup "payouts_locked" = none) ∧
    isPayoutsLockedStore [] = (false, none) :=
  ⟨rfl, (isPayoutsLocked_roundtrip [] "boom").1 rfl⟩

/-- C8: ledger round trip.  Persisting any `PendingPayment` as the JSON
document with fields `Address`, `Amount`, `Timestamp` under a single
pending-payment key, then listing, yields exactly that one record. -/
theorem pendingPayment_roundtrip (p : PendingPayment) (key : String)
    (hkey : matchesPendingPayment key = true) :
    GetPendingPayments [(key, marshalPendingPayment p)] = Except.ok [p] := by
  have hkeys : redisKeys [(key, marshalPendingPayment p)] = [key] := by
    simp [redisKeys, List.filter, hkey]
  have hget : redisGetJson [(key, marshalPendingPayment p)] key =
      Except.ok (marshalPendingPayment p) := by
    simp [redisGetJson, List.lookup]
  simp [GetPendingPayments, hkeys, getPendingPaymentsLoop, hget,
    unmarshal_marshal]

/-- Witness for C8 with the spec's example record
`{Address: "0xabc", Amount: 1000, Timestamp: 1700000000}`. -/
theorem pendingPayment_roundtrip_witness :
    matchesPendingPayment "pending_payment:0xabc" = true ∧
    GetPendingPayments
        [("pending_payment:0xabc",
          marshalPendingPayment ⟨"0xabc", 1000, 1700000000⟩)] =
      Except.ok [⟨"0xabc", 1000, 1700000000⟩] :=
  ⟨by decide, pendingPayment_roundtrip ⟨"0xabc", 1000, 1700000000⟩
    "pending_payment:0xabc" (by decide)⟩

/-- C9: key deletion is idempotent.  Deleting an absent key succeeds without
error and leaves the keyspace unchanged; a delete never reports an error;
deleting the same key again succeeds without error; and after a delete the
key is absent. `DeleteOldShareData` behaves identically. -/
theorem delete_idempotent (store : StrStore) (key : String) :
    (store.lookup key = none → DeleteOldMinerData store key = (store, none)) ∧
    (DeleteOldMinerData store key).2 = none ∧
    DeleteOldMinerData (DeleteOldMinerData store key).1 key =
      ((DeleteOldMinerData store key).1, none) ∧
    ((DeleteOldMinerData store key).1).lookup key = none ∧
    DeleteOldShareData store key = DeleteOldMinerData store key := by
  refine ⟨?_, rfl, ?_, ?_, rfl⟩
  · intro habs
    simp [DeleteOldMinerData, redisDel_absent store key habs]
  · simp [DeleteOldMinerData]
    exact redisDel_absent _ _ (lookup_redisDel store key)
  · exact lookup_redisDel store key

/-- Witness for C9: deleting the absent key `"b"` from a one-entry
keyspace. -/
theorem delete_idempotent_witness :
    ([("a", "x")] : StrStore).lookup "b" = none ∧
    DeleteOldMinerData [("a", "x")] "b" = ([("a", "x")], none) :=
  ⟨by decide, (delete_idempotent [("a", "x")] "b").1 (by decide)⟩

/-- C10: only the exact sentinel value `"1"` counts as locked: a present
`payouts_locked` key holding any other string yields `(false, no error)`. -/
theorem isPayoutsLocked_nonsentinel_false (store : StrStore) (v : String)
    (hv : store.lookup "payouts_locked" = some v) (hne : v ≠ "1") :
    isPayoutsLockedStore store = (false, none) := by
  simp [isPayoutsLockedStore, redisGetStr, hv, IsPayoutsLocked, hne]

/-- Witness for C10 with the stored value `"0"`. -/
theorem isPayoutsLocked_nonsentinel_false_witness :
    ([("payouts_locked", "0")] : StrStore).lookup "payouts_locked" = some "0" ∧
    ("0" : String) ≠ "1" ∧
    isPayoutsLockedStore [("payouts_locked", "0")] = (false, none) :=
  ⟨by decide, by decide,
    isPayoutsLocked_nonsentinel_false [("payouts_locked", "0")] "0"
      (by decide) (by decide)⟩
